import Mathlib

/-!
Shallow embedding of the naipe card-game library (src/common/card.rs,
src/common/deck.rs, src/common/hand.rs, src/games/war.rs) and proofs
about its specification.

Modelling conventions:
- Rust `Vec<Card>` becomes `List Card` in the same order; `Vec::push`
  appends at the end, `Vec::pop` removes the last element (the "top").
- `&mut self` methods become functions returning the new state.
- Shuffling (`shuffle_with_default_rng`) is modelled by an oracle
  `sh : Nat -> List Card -> List Card` together with a call counter that
  increments at every shuffle call; theorems assume at most that each
  oracle answer preserves length (true of any permutation).
- Rust panics (`unwrap` on `Err`/`None`, the `unreachable!` macro) are
  modelled as `Except WarPanic` error results.
- The `while` loop of the war tie-break is given explicit fuel; running
  out of fuel is a distinct modelling artefact (`WarPanic.fuelOut`),
  never identified with a real panic.
-/

namespace Naipe

/-- Suit enumeration, declaration order as in card.rs. -/
inductive Suit
  | Spade
  | Club
  | Heart
  | Diamond
deriving DecidableEq

/-- Rank enumeration. Declaration order as in card.rs: Two first, Ace last. -/
inductive Rank
  | Two
  | Three
  | Four
  | Five
  | Six
  | Seven
  | Eight
  | Nine
  | Ten
  | Jack
  | Queen
  | King
  | Ace
deriving DecidableEq

/-- Discriminant of a Rank constructor, in declaration order.
Rust's derived Ord on a fieldless enum compares discriminants. -/
def Rank.toNat : Rank → Nat
  | .Two => 0
  | .Three => 1
  | .Four => 2
  | .Five => 3
  | .Six => 4
  | .Seven => 5
  | .Eight => 6
  | .Nine => 7
  | .Ten => 8
  | .Jack => 9
  | .Queen => 10
  | .King => 11
  | .Ace => 12

/-- The derived total order on Rank (card.rs line 9): compare discriminants. -/
def Rank.cmp (a b : Rank) : Ordering := compare a.toNat b.toNat

/-- Rank::all_ranks (card.rs): note the list order (Ace first) is unrelated
to the derived Ord. -/
def Rank.all_ranks : List Rank :=
  [.Ace, .Two, .Three, .Four, .Five, .Six, .Seven, .Eight, .Nine, .Ten,
   .Jack, .Queen, .King]

/-- Suit::all_suits (card.rs). -/
def Suit.all_suits : List Suit := [.Spade, .Club, .Heart, .Diamond]

/-- A card: a suit and a rank (card.rs struct Card). -/
structure Card where
  suit : Suit
  rank : Rank
deriving DecidableEq

/-- Card::all_cards (card.rs): for each suit, all ranks. -/
def Card.all_cards : List Card :=
  (Suit.all_suits.map (fun s => Rank.all_ranks.map (fun r => ⟨s, r⟩))).flatten

/-- The Suitless wrapper (card.rs): a card whose comparisons ignore the suit. -/
structure Suitless where
  card : Card
deriving DecidableEq

/-- Ord for Suitless (card.rs lines 256-260): compare ranks only. -/
def Suitless.cmp (a b : Suitless) : Ordering := Rank.cmp a.card.rank b.card.rank

/-- PartialEq for Suitless (card.rs lines 262-266): rank equality only. -/
def Suitless.eqb (a b : Suitless) : Bool := a.card.rank == b.card.rank

/-- Error type of deck dealing (deck.rs). -/
inductive DeckDealError
  | NotEnoughCards
deriving DecidableEq

/-- A deck of cards (deck.rs struct Deck, a Vec with the top at the end). -/
structure Deck where
  cards : List Card
deriving DecidableEq

/-- Deck::len. -/
def Deck.len (d : Deck) : Nat := d.cards.length

/-- Deck::is_empty. -/
def Deck.is_empty (d : Deck) : Bool := d.cards.isEmpty

/-- Deck::add: push one card on top (end of the Vec). -/
def Deck.add (d : Deck) (c : Card) : Deck := ⟨d.cards ++ [c]⟩

/-- Deck extend (Extend impl in deck.rs): append a list of cards. -/
def Deck.extendCards (d : Deck) (cs : List Card) : Deck := ⟨d.cards ++ cs⟩

/-- One pass of the inner loop of Deck::deal_cards (deck.rs lines 84-88):
pop one card from the top of the deck for each bucket in order, pushing it
onto that bucket. Returns none if a pop fails, together with the deck state
at that point (the mutation already performed, as with the Rust early return). -/
def dealRound (d : Deck) (hands : List (List Card)) :
    Option (List (List Card)) × Deck :=
  match hands with
  | [] => (some [], d)
  | h :: rest =>
    match d.cards.getLast? with
    | none => (none, d)
    | some c =>
      match dealRound ⟨d.cards.dropLast⟩ rest with
      | (none, d2) => (none, d2)
      | (some rest2, d2) => (some ((h ++ [c]) :: rest2), d2)

/-- The outer loop of Deck::deal_cards: cards_per_hand rounds of dealRound. -/
def dealRounds (n : Nat) (d : Deck) (hands : List (List Card)) :
    Option (List (List Card)) × Deck :=
  match n with
  | 0 => (some hands, d)
  | m + 1 =>
    match dealRound d hands with
    | (none, d1) => (none, d1)
    | (some hands1, d1) => dealRounds m d1 hands1

/-- Deck::deal_cards (deck.rs lines 70-91): guard, then round-robin deal. -/
def Deck.deal_cards (d : Deck) (hand_count cards_per_hand : Nat) :
    Except DeckDealError (List (List Card)) × Deck :=
  if d.len < hand_count * cards_per_hand then
    (.error .NotEnoughCards, d)
  else
    match dealRounds cards_per_hand d (List.replicate hand_count []) with
    | (none, d1) => (.error .NotEnoughCards, d1)
    | (some hs, d1) => (.ok hs, d1)

/-- Deck::deal_all_cards (deck.rs lines 111-117). -/
def Deck.deal_all_cards (d : Deck) (hand_count : Nat) :
    Except DeckDealError (List (List Card)) × Deck :=
  if d.len < hand_count then
    (.error .NotEnoughCards, d)
  else
    d.deal_cards hand_count (d.len / hand_count)

/-- Sum of the bucket sizes of a list of card buckets. -/
def sumLen (hs : List (List Card)) : Nat := (hs.map List.length).sum

/-- Abnormal outcomes of a tick. `unwrapFailed` models a Rust `unwrap` panic,
`unreachableTiebreak` the `unreachable!` macro at war.rs line 157, and
`fuelOut` is a modelling artefact: the explicit fuel given to the
tie-breaking `while` loop ran out (no Rust counterpart). -/
inductive WarPanic
  | unwrapFailed
  | unreachableTiebreak
  | fuelOut
deriving DecidableEq

/-- The War game state (war.rs struct WarGame): two hands (Vec of cards,
top at the end) and two capture decks. -/
structure WarGame where
  player_1_hand : List Card
  player_2_hand : List Card
  player_1_capture : Deck
  player_2_capture : Deck
deriving DecidableEq

/-- WarGame::player_1_won (war.rs lines 21-23). -/
def WarGame.player_1_won (g : WarGame) : Bool :=
  g.player_2_hand.isEmpty && g.player_2_capture.is_empty

/-- WarGame::player_2_won (war.rs lines 25-27). -/
def WarGame.player_2_won (g : WarGame) : Bool :=
  g.player_1_hand.isEmpty && g.player_1_capture.is_empty

/-- Total number of cards held by both players (hands plus capture piles). -/
def WarGame.totalCount (g : WarGame) : Nat :=
  g.player_1_hand.length + g.player_1_capture.len +
    g.player_2_hand.length + g.player_2_capture.len

/-- Hand::pop (hand.rs lines 19-21): remove and return the last card. -/
def handPop (hand : List Card) : Option Card × List Card :=
  match hand.getLast? with
  | some c => (some c, hand.dropLast)
  | none => (none, hand)

/-- The hand-refill step at the top of tick (war.rs lines 68-77 and 79-88):
if the hand is empty, shuffle the capture pile and move all of its cards into
the hand via deal_all_cards(1).unwrap()[0]; the unwrap panics when the
capture pile is empty. Returns the new hand, capture pile and shuffle
counter. -/
def refillHand (sh : Nat → List Card → List Card) (k : Nat)
    (hand : List Card) (cap : Deck) :
    Except WarPanic (List Card × Deck × Nat) :=
  if hand.isEmpty then
    let cap1 : Deck := ⟨sh k cap.cards⟩
    match cap1.deal_all_cards 1 with
    | (.ok buckets, cap2) =>
      match buckets.head? with
      | some b => .ok (hand ++ b, cap2, k + 1)
      | none => .error .unwrapFailed
    | (.error _, _) => .error .unwrapFailed
  else
    .ok (hand, cap, k)

/-- One face-down draw attempt for one player during a war round
(war.rs lines 107-117): pop from the hand; on failure shuffle the capture
pile, give up if it is empty, otherwise move all its cards into the hand
and pop again. Returns the drawn card (if any) and the new state. -/
def drawDown (sh : Nat → List Card → List Card) (k : Nat)
    (hand : List Card) (cap : Deck) :
    Except WarPanic (Option Card × List Card × Deck × Nat) :=
  match handPop hand with
  | (some c, hand1) => .ok (some c, hand1, cap, k)
  | (none, _) =>
    let cap1 : Deck := ⟨sh k cap.cards⟩
    if cap1.is_empty then
      .ok (none, hand, cap1, k + 1)
    else
      match cap1.deal_all_cards 1 with
      | (.ok buckets, cap2) =>
        match buckets.head? with
        | some b =>
          match handPop (hand ++ b) with
          | (some c, hand1) => .ok (some c, hand1, cap2, k + 1)
          | (none, hand1) => .ok (none, hand1, cap2, k + 1)
        | none => .error .unwrapFailed
      | (.error _, _) => .error .unwrapFailed

/-- One iteration of the 3-iteration face-down loop (war.rs lines 106-137):
both players attempt a face-down draw; drawn cards are pushed onto the pot
(player 1's first) and become that player's tie-break candidate. -/
def downStep (sh : Nat → List Card → List Card) (k : Nat) (g : WarGame)
    (pot : List Card) (ch1 ch2 : Option Card) :
    Except WarPanic (WarGame × List Card × Option Card × Option Card × Nat) :=
  match drawDown sh k g.player_1_hand g.player_1_capture with
  | .error e => .error e
  | .ok (oc1, h1, c1, k1) =>
    match drawDown sh k1 g.player_2_hand g.player_2_capture with
    | .error e => .error e
    | .ok (oc2, h2, c2, k2) =>
      .ok (⟨h1, h2, c1, c2⟩, pot ++ oc1.toList ++ oc2.toList,
           oc1.or ch1, oc2.or ch2, k2)

/-- The face-down loop, iterated n times (n = 3 in war.rs line 106). -/
def downPhase (sh : Nat → List Card → List Card) (n : Nat) (k : Nat)
    (g : WarGame) (pot : List Card) (ch1 ch2 : Option Card) :
    Except WarPanic (WarGame × List Card × Option Card × Option Card × Nat) :=
  match n with
  | 0 => .ok (g, pot, ch1, ch2, k)
  | m + 1 =>
    match downStep sh k g pot ch1 ch2 with
    | .error e => .error e
    | .ok (g1, pot1, d1, d2, k1) => downPhase sh m k1 g1 pot1 d1 d2

/-- One round of the tie-breaking while loop (war.rs lines 102-160):
three face-down draws per player, then one final pop per player directly
from the hand (no reshuffle), pot and candidates updated, and the round
ordering computed. Both candidates absent is the `unreachable!` branch. -/
def warRound (sh : Nat → List Card → List Card) (k : Nat) (g : WarGame)
    (pot : List Card) :
    Except WarPanic (Ordering × WarGame × List Card × Nat) :=
  match downPhase sh 3 k g pot none none with
  | .error e => .error e
  | .ok (g1, pot1, ch1, ch2, k1) =>
    match handPop g1.player_1_hand, handPop g1.player_2_hand with
    | (f1, h1), (f2, h2) =>
      match (f1.or ch1), (f2.or ch2) with
      | some c1, some c2 =>
        .ok (Suitless.cmp ⟨c1⟩ ⟨c2⟩,
             ⟨h1, h2, g1.player_1_capture, g1.player_2_capture⟩,
             pot1 ++ f1.toList ++ f2.toList, k1)
      | some _, none =>
        .ok (.gt, ⟨h1, h2, g1.player_1_capture, g1.player_2_capture⟩,
             pot1 ++ f1.toList ++ f2.toList, k1)
      | none, some _ =>
        .ok (.lt, ⟨h1, h2, g1.player_1_capture, g1.player_2_capture⟩,
             pot1 ++ f1.toList ++ f2.toList, k1)
      | none, none => .error .unreachableTiebreak

/-- The tie-breaking while loop (war.rs lines 102-160), with explicit fuel:
repeat warRound while the round ordering is Equal. -/
def warLoop (sh : Nat → List Card → List Card) (fuel : Nat) (k : Nat)
    (g : WarGame) (pot : List Card) :
    Except WarPanic (Ordering × WarGame × List Card × Nat) :=
  match fuel with
  | 0 => .error .fuelOut
  | f + 1 =>
    match warRound sh k g pot with
    | .error e => .error e
    | .ok (ord, g1, pot1, k1) =>
      if ord = .eq then warLoop sh f k1 g1 pot1 else .ok (ord, g1, pot1, k1)

/-- WarGame::tick (war.rs lines 58-187). Returns Ok(true) when a player has
already won, otherwise refills empty hands from the capture piles, pops one
played card per player, compares them suit-insensitively, and either awards
the two cards to the higher rank's owner or runs the war escalation and
awards the whole pot. -/
def WarGame.tick (sh : Nat → List Card → List Card) (fuel : Nat) (k : Nat)
    (g : WarGame) : Except WarPanic (Bool × WarGame × Nat) :=
  if g.player_1_won || g.player_2_won then
    .ok (true, g, k)
  else
    match refillHand sh k g.player_1_hand g.player_1_capture with
    | .error e => .error e
    | .ok (p1h, p1c, k1) =>
      match refillHand sh k1 g.player_2_hand g.player_2_capture with
      | .error e => .error e
      | .ok (p2h, p2c, k2) =>
        match handPop p1h, handPop p2h with
        | (some c1, p1h1), (some c2, p2h1) =>
          match Suitless.cmp ⟨c1⟩ ⟨c2⟩ with
          | .eq =>
            match warLoop sh fuel k2 ⟨p1h1, p2h1, p1c, p2c⟩ [c1, c2] with
            | .error e => .error e
            | .ok (ord, g1, pot, k3) =>
              if ord = .lt then
                .ok (false, ⟨g1.player_1_hand, g1.player_2_hand,
                     g1.player_1_capture,
                     g1.player_2_capture.extendCards pot⟩, k3)
              else
                .ok (false, ⟨g1.player_1_hand, g1.player_2_hand,
                     g1.player_1_capture.extendCards pot,
                     g1.player_2_capture⟩, k3)
          | .lt =>
            .ok (false, ⟨p1h1, p2h1, p1c, (p2c.add c1).add c2⟩, k2)
          | .gt =>
            .ok (false, ⟨p1h1, p2h1, (p1c.add c1).add c2, p2c⟩, k2)
        | _, _ => .error .unwrapFailed

/-- WarGame::default (war.rs lines 38-51): a single 52-card set, shuffled
(the first oracle call), then deal_all_cards_to_hands over two empty hands;
the two buckets become the players' hands and the capture piles start empty.
Returns none when the unwrap in the Rust code would panic (it cannot for a
length-preserving oracle). -/
def WarGame.mkDefault (sh : Nat → List Card → List Card) : Option WarGame :=
  let deck : Deck := ⟨sh 0 Card.all_cards⟩
  match deck.deal_all_cards 2 with
  | (.ok [b0, b1], _) => some ⟨b0, b1, ⟨[]⟩, ⟨[]⟩⟩
  | _ => none

/-- States reachable from the default construction by successful ticks,
together with the shuffle-call counter. -/
inductive Reachable (sh : Nat → List Card → List Card) : WarGame → Nat → Prop
  | init (g : WarGame) : WarGame.mkDefault sh = some g → Reachable sh g 1
  | step (g : WarGame) (k fuel : Nat) (b : Bool) (g2 : WarGame) (k2 : Nat) :
      Reachable sh g k → WarGame.tick sh fuel k g = .ok (b, g2, k2) →
      Reachable sh g2 k2

/-- Oracles that answer every shuffle request with a list of the same
length; any permutation-valued oracle qualifies. -/
def LengthPreserving (sh : Nat → List Card → List Card) : Prop :=
  ∀ k l, (sh k l).length = l.length

/-- The identity shuffle oracle, used to instantiate reachability at
concrete inputs. -/
def idSh : Nat → List Card → List Card := fun _ l => l

/-- The game produced by the default construction under the identity
shuffle oracle (the fallback branch is unreachable). -/
def defaultIdGame : WarGame :=
  match WarGame.mkDefault idSh with
  | some g => g
  | none => ⟨[], [], ⟨[]⟩, ⟨[]⟩⟩

/-- A permutation of the 52-card deck that drives the first tick of the
game into the war tie-break until both players are simultaneously
exhausted. After the round-robin deal, player 1 holds the odd positions
and plays them from position 1 upward, player 2 the even positions from
position 0 upward; positions (0,1), (8,9), (16,17), (24,25), (32,33),
(40,41), (48,49) and (50,51) carry equal ranks, so the opening play and
the tie-break card of every escalation round tie until no cards remain. -/
def panicDeal : List Card := [
  ⟨.Spade, .Two⟩, ⟨.Club, .Two⟩, ⟨.Heart, .Ace⟩, ⟨.Heart, .Two⟩,
  ⟨.Heart, .Three⟩, ⟨.Heart, .Four⟩, ⟨.Heart, .Five⟩, ⟨.Heart, .Six⟩,
  ⟨.Spade, .Three⟩, ⟨.Club, .Three⟩, ⟨.Heart, .Seven⟩, ⟨.Heart, .Eight⟩,
  ⟨.Heart, .Nine⟩, ⟨.Heart, .Ten⟩, ⟨.Heart, .Jack⟩, ⟨.Heart, .Queen⟩,
  ⟨.Spade, .Four⟩, ⟨.Club, .Four⟩, ⟨.Heart, .King⟩, ⟨.Diamond, .Ace⟩,
  ⟨.Diamond, .Two⟩, ⟨.Diamond, .Three⟩, ⟨.Diamond, .Four⟩, ⟨.Diamond, .Five⟩,
  ⟨.Spade, .Five⟩, ⟨.Club, .Five⟩, ⟨.Diamond, .Six⟩, ⟨.Diamond, .Seven⟩,
  ⟨.Diamond, .Eight⟩, ⟨.Diamond, .Nine⟩, ⟨.Diamond, .Ten⟩, ⟨.Diamond, .Jack⟩,
  ⟨.Spade, .Six⟩, ⟨.Club, .Six⟩, ⟨.Diamond, .Queen⟩, ⟨.Diamond, .King⟩,
  ⟨.Spade, .Ten⟩, ⟨.Spade, .Jack⟩, ⟨.Spade, .Queen⟩, ⟨.Spade, .King⟩,
  ⟨.Spade, .Seven⟩, ⟨.Club, .Seven⟩, ⟨.Spade, .Ace⟩, ⟨.Club, .Ten⟩,
  ⟨.Club, .Jack⟩, ⟨.Club, .Queen⟩, ⟨.Club, .King⟩, ⟨.Club, .Ace⟩,
  ⟨.Spade, .Eight⟩, ⟨.Club, .Eight⟩, ⟨.Spade, .Nine⟩, ⟨.Club, .Nine⟩]

/-- A shuffle oracle whose first answer (the construction-time shuffle of
the full deck) is panicDeal and which leaves every later shuffle request
unchanged (a legal permutation in every case). -/
def panicSh : Nat → List Card → List Card := fun k l => if k = 0 then panicDeal else l

/-- The game produced by the default construction under panicSh (the
fallback branch is unreachable). -/
def panicGame : WarGame :=
  match WarGame.mkDefault panicSh with
  | some g => g
  | none => ⟨[], [], ⟨[]⟩, ⟨[]⟩⟩

/-- Concrete cards used in witnesses and counterexamples. -/
def aceSpade : Card := ⟨.Spade, .Ace⟩

def kingSpade : Card := ⟨.Spade, .King⟩

def fiveSpade : Card := ⟨.Spade, .Five⟩

def fiveHeart : Card := ⟨.Heart, .Five⟩

theorem dealRound_some_spec :
    ∀ (hands : List (List Card)) (d : Deck) (hands2 : List (List Card)) (d2 : Deck),
    dealRound d hands = (some hands2, d2) →
    hands2.length = hands.length ∧
      sumLen hands2 = sumLen hands + hands.length ∧
      d2.cards.length + hands.length = d.cards.length := by
  intro hands
  induction hands with
  | nil =>
    intro d hands2 d2 h
    simp only [dealRound] at h
    obtain ⟨h1, h2⟩ := Prod.mk.injEq _ _ _ _ ▸ h
    cases h
    simp [sumLen]
  | cons hd tl ih =>
    intro d hands2 d2 h
    simp only [dealRound] at h
    cases hlast : d.cards.getLast? with
    | none => rw [hlast] at h; cases h
    | some c =>
      rw [hlast] at h
      have hne : d.cards ≠ [] := by
        intro hnil
        rw [hnil] at hlast
        cases hlast
      cases hrec : dealRound ⟨d.cards.dropLast⟩ tl with
      | mk orest drest =>
        cases orest with
        | none => rw [hrec] at h; cases h
        | some rest2 =>
          rw [hrec] at h
          cases h
          obtain ⟨ih1, ih2, ih3⟩ := ih _ _ _ hrec
          have hlen : d.cards.dropLast.length = d.cards.length - 1 :=
            List.length_dropLast d.cards
          have hpos : 1 ≤ d.cards.length :=
            Nat.one_le_iff_ne_zero.mpr (fun h0 => hne (List.length_eq_zero.mp h0))
          simp only [List.length_cons, sumLen, List.map_cons, List.sum_cons,
            List.length_append, List.length_cons, List.length_nil] at *
          refine ⟨by omega, by omega, by omega⟩

theorem dealRound_some_of_le :
    ∀ (hands : List (List Card)) (d : Deck),
    hands.length ≤ d.cards.length →
    ∃ hands2 d2, dealRound d hands = (some hands2, d2) := by
  intro hands
  induction hands with
  | nil =>
    intro d _
    exact ⟨[], d, rfl⟩
  | cons hd tl ih =>
    intro d hle
    have hne : d.cards ≠ [] := by
      intro hnil
      rw [hnil] at hle
      simp at hle
    have hsome : d.cards.getLast?.isSome := List.getLast?_isSome.mpr hne
    cases hlast : d.cards.getLast? with
    | none => rw [hlast] at hsome; cases hsome
    | some c =>
      have hlen : d.cards.dropLast.length = d.cards.length - 1 :=
        List.length_dropLast d.cards
      have htl : tl.length ≤ d.cards.dropLast.length := by
        simp only [List.length_cons] at hle
        omega
      obtain ⟨rest2, d2, hrec⟩ := ih ⟨d.cards.dropLast⟩ htl
      refine ⟨(hd ++ [c]) :: rest2, d2, ?_⟩
      simp only [dealRound, hlast, hrec]

theorem dealRound_buckets :
    ∀ (hands : List (List Card)) (d : Deck) (hands2 : List (List Card)) (d2 : Deck)
      (m : Nat),
    (∀ h ∈ hands, h.length = m) →
    dealRound d hands = (some hands2, d2) →
    ∀ h2 ∈ hands2, h2.length = m + 1 := by
  intro hands
  induction hands with
  | nil =>
    intro d hands2 d2 m _ h
    simp only [dealRound] at h
    cases h
    intro h2 hmem
    cases hmem
  | cons hd tl ih =>
    intro d hands2 d2 m hall h
    simp only [dealRound] at h
    cases hlast : d.cards.getLast? with
    | none => rw [hlast] at h; cases h
    | some c =>
      rw [hlast] at h
      cases hrec : dealRound ⟨d.cards.dropLast⟩ tl with
      | mk orest drest =>
        cases orest with
        | none => rw [hrec] at h; cases h
        | some rest2 =>
          rw [hrec] at h
          cases h
          intro h2 hmem
          cases hmem with
          | head =>
            have := hall hd (by simp)
            simp [this]
          | tail _ hmem2 =>
            exact ih _ _ _ m (fun x hx => hall x (by simp [hx])) hrec h2 hmem2

theorem dealRounds_some_spec :
    ∀ (n : Nat) (d : Deck) (hands hands2 : List (List Card)) (d2 : Deck),
    dealRounds n d hands = (some hands2, d2) →
    hands2.length = hands.length ∧
      sumLen hands2 = sumLen hands + n * hands.length ∧
      d2.cards.length + n * hands.length = d.cards.length := by
  intro n
  induction n with
  | zero =>
    intro d hands hands2 d2 h
    simp only [dealRounds] at h
    cases h
    simp
  | succ m ih =>
    intro d hands hands2 d2 h
    simp only [dealRounds] at h
    cases hr : dealRound d hands with
    | mk ohands1 d1 =>
      cases ohands1 with
      | none => rw [hr] at h; cases h
      | some hands1 =>
        rw [hr] at h
        obtain ⟨s1, s2, s3⟩ := dealRound_some_spec _ _ _ _ hr
        obtain ⟨t1, t2, t3⟩ := ih _ _ _ _ h
        refine ⟨by omega, ?_, ?_⟩
        · rw [t2, s2, s1]
          ring
        · rw [s1] at t3
          have : (m + 1) * hands.length = m * hands.length + hands.length := by ring
          omega

theorem dealRounds_some_of_le :
    ∀ (n : Nat) (d : Deck) (hands : List (List Card)),
    n * hands.length ≤ d.cards.length →
    ∃ hands2 d2, dealRounds n d hands = (some hands2, d2) := by
  intro n
  induction n with
  | zero =>
    intro d hands _
    exact ⟨hands, d, rfl⟩
  | succ m ih =>
    intro d hands hle
    have h1 : hands.length ≤ d.cards.length := by
      have : (m + 1) * hands.length = m * hands.length + hands.length := by ring
      omega
    obtain ⟨hands1, d1, hr⟩ := dealRound_some_of_le hands d h1
    obtain ⟨s1, s2, s3⟩ := dealRound_some_spec _ _ _ _ hr
    have h2 : m * hands1.length ≤ d1.cards.length := by
      rw [s1]
      have : (m + 1) * hands.length = m * hands.length + hands.length := by ring
      omega
    obtain ⟨hands2, d2, hrec⟩ := ih d1 hands1 h2
    refine ⟨hands2, d2, ?_⟩
    simp only [dealRounds, hr, hrec]

theorem dealRounds_buckets :
    ∀ (n : Nat) (d : Deck) (hands hands2 : List (List Card)) (d2 : Deck) (m : Nat),
    (∀ h ∈ hands, h.length = m) →
    dealRounds n d hands = (some hands2, d2) →
    ∀ h2 ∈ hands2, h2.length = m + n := by
  intro n
  induction n with
  | zero =>
    intro d hands hands2 d2 m hall h
    simp only [dealRounds] at h
    cases h
    simpa using hall
  | succ j ih =>
    intro d hands hands2 d2 m hall h
    simp only [dealRounds] at h
    cases hr : dealRound d hands with
    | mk ohands1 d1 =>
      cases ohands1 with
      | none => rw [hr] at h; cases h
      | some hands1 =>
        rw [hr] at h
        have hall1 := dealRound_buckets _ _ _ _ m hall hr
        have := ih _ _ _ _ (m + 1) hall1 h
        intro h2 hmem
        have := this h2 hmem
        omega

theorem deal_cards_err (d : Deck) (hc cph : Nat) (h : d.len < hc * cph) :
    d.deal_cards hc cph = (.error .NotEnoughCards, d) := by
  simp only [Deck.deal_cards, if_pos h]

theorem deal_cards_ok (d : Deck) (hc cph : Nat) (h : hc * cph ≤ d.len) :
    ∃ hs d2, d.deal_cards hc cph = (.ok hs, d2) ∧ hs.length = hc ∧
      (∀ b ∈ hs, b.length = cph) ∧ d2.len + hc * cph = d.len := by
  have hle : cph * (List.replicate hc ([] : List Card)).length ≤ d.cards.length := by
    simp only [List.length_replicate]
    have hml : cph * hc = hc * cph := Nat.mul_comm cph hc
    have hlen : d.len = d.cards.length := rfl
    omega
  obtain ⟨hs, d2, hds⟩ := dealRounds_some_of_le cph d (List.replicate hc []) hle
  obtain ⟨s1, s2, s3⟩ := dealRounds_some_spec _ _ _ _ _ hds
  have hb := dealRounds_buckets cph d (List.replicate hc []) hs d2 0
    (by intro x hx; simp [List.eq_of_mem_replicate hx]) hds
  refine ⟨hs, d2, ?_, ?_, ?_, ?_⟩
  · simp only [Deck.deal_cards, if_neg (Nat.not_lt.mpr h), hds]
  · simpa using s1
  · intro b hbmem
    simpa using hb b hbmem
  · simp only [List.length_replicate] at s3
    have : cph * hc = hc * cph := Nat.mul_comm cph hc
    simp only [Deck.len]
    omega

theorem deal_cards_ok_count (d : Deck) (hc cph : Nat) (hs : List (List Card))
    (d2 : Deck) (h : d.deal_cards hc cph = (.ok hs, d2)) :
    sumLen hs + d2.len = d.len ∧ hs.length = hc := by
  simp only [Deck.deal_cards] at h
  by_cases hlt : d.len < hc * cph
  · rw [if_pos hlt] at h
    cases h
  · rw [if_neg hlt] at h
    cases hds : dealRounds cph d (List.replicate hc []) with
    | mk ohs d1 =>
      cases ohs with
      | none => rw [hds] at h; cases h
      | some hs1 =>
        rw [hds] at h
        cases h
        obtain ⟨s1, s2, s3⟩ := dealRounds_some_spec _ _ _ _ _ hds
        have hz : sumLen (List.replicate hc ([] : List Card)) = 0 := by
          simp [sumLen, List.map_replicate]
        simp only [List.length_replicate] at s2 s3
        rw [hz] at s2
        constructor
        · simp only [Deck.len]
          omega
        · simpa using s1

theorem deal_all_cards_ok_count (d : Deck) (hc : Nat) (hs : List (List Card))
    (d2 : Deck) (h : d.deal_all_cards hc = (.ok hs, d2)) :
    sumLen hs + d2.len = d.len ∧ hs.length = hc := by
  simp only [Deck.deal_all_cards] at h
  by_cases hlt : d.len < hc
  · rw [if_pos hlt] at h
    cases h
  · rw [if_neg hlt] at h
    exact deal_cards_ok_count _ _ _ _ _ h

theorem deal_all_cards_spec (d : Deck) (hc : Nat) (h : hc ≤ d.len) :
    ∃ hs d2, d.deal_all_cards hc = (.ok hs, d2) ∧ hs.length = hc ∧
      (∀ b ∈ hs, b.length = d.len / hc) ∧ d2.len = d.len % hc := by
  have hmul : hc * (d.len / hc) ≤ d.len := Nat.mul_div_le d.len hc
  obtain ⟨hs, d2, hdc, h1, h2, h3⟩ := deal_cards_ok d hc (d.len / hc) hmul
  refine ⟨hs, d2, ?_, h1, h2, ?_⟩
  · simp only [Deck.deal_all_cards, if_neg (Nat.not_lt.mpr h), hdc]
  · have hdm : hc * (d.len / hc) + d.len % hc = d.len := Nat.div_add_mod d.len hc
    omega

theorem handPop_count (hand : List Card) :
    (handPop hand).1.toList.length + (handPop hand).2.length = hand.length := by
  simp only [handPop]
  cases hlast : hand.getLast? with
  | none => simp
  | some c =>
    have hne : hand ≠ [] := by
      intro hnil
      rw [hnil] at hlast
      cases hlast
    have hpos : 1 ≤ hand.length :=
      Nat.one_le_iff_ne_zero.mpr (fun h0 => hne (List.length_eq_zero.mp h0))
    have hlen : hand.dropLast.length = hand.length - 1 := List.length_dropLast hand
    simp only [Option.toList_some, List.length_cons, List.length_nil]
    omega

theorem refillHand_count (sh : Nat → List Card → List Card)
    (hsh : LengthPreserving sh) (k : Nat) (hand : List Card) (cap : Deck)
    (h2 : List Card) (c2 : Deck) (k2 : Nat)
    (h : refillHand sh k hand cap = .ok (h2, c2, k2)) :
    h2.length + c2.len = hand.length + cap.len := by
  simp only [refillHand] at h
  cases hemp : hand.isEmpty with
  | false =>
    rw [hemp] at h
    simp only [Bool.false_eq_true, if_false] at h
    cases h
    rfl
  | true =>
    rw [hemp] at h
    simp only [if_true] at h
    have hnil : hand = [] := List.isEmpty_iff.mp hemp
    cases hdeal : Deck.deal_all_cards ⟨sh k cap.cards⟩ 1 with
    | mk r capx =>
      cases r with
      | error e => rw [hdeal] at h; cases h
      | ok buckets =>
        rw [hdeal] at h
        obtain ⟨hcnt, hlen1⟩ := deal_all_cards_ok_count _ _ _ _ hdeal
        cases buckets with
        | nil => cases hlen1
        | cons b rest =>
          cases rest with
          | cons x xs => simp at hlen1
          | nil =>
            simp only [List.head?_cons] at h
            cases h
            simp only [sumLen, List.map_cons, List.map_nil, List.sum_cons,
              List.sum_nil, Deck.len, List.length_append] at *
            have hcap : (sh k cap.cards).length = cap.cards.length := hsh k cap.cards
            simp only [hnil, List.length_nil]
            omega

theorem drawDown_count (sh : Nat → List Card → List Card)
    (hsh : LengthPreserving sh) (k : Nat) (hand : List Card) (cap : Deck)
    (oc : Option Card) (h2 : List Card) (c2 : Deck) (k2 : Nat)
    (h : drawDown sh k hand cap = .ok (oc, h2, c2, k2)) :
    oc.toList.length + h2.length + c2.len = hand.length + cap.len := by
  simp only [drawDown] at h
  have hpc := handPop_count hand
  cases hpop : handPop hand with
  | mk o hand1 =>
    rw [hpop] at h hpc
    cases o with
    | some c =>
      cases h
      simp only [Option.toList_some, List.length_cons, List.length_nil] at hpc ⊢
      omega
    | none =>
      simp only [Option.toList_none, List.length_nil, Nat.zero_add] at hpc
      have hcap : (sh k cap.cards).length = cap.cards.length := hsh k cap.cards
      cases hempb : Deck.is_empty ⟨sh k cap.cards⟩ with
      | true =>
        rw [hempb] at h
        simp only [if_true] at h
        cases h
        have : (sh k cap.cards).length = 0 := by
          have := List.isEmpty_iff.mp hempb
          simp only [Deck.is_empty] at hempb
          simpa [List.isEmpty_iff] using hempb
        simp only [Option.toList_none, List.length_nil, Deck.len]
        omega
      | false =>
        rw [hempb] at h
        simp only [Bool.false_eq_true, if_false] at h
        cases hdeal : Deck.deal_all_cards ⟨sh k cap.cards⟩ 1 with
        | mk r capx =>
          cases r with
          | error e => rw [hdeal] at h; cases h
          | ok buckets =>
            rw [hdeal] at h
            obtain ⟨hcnt, hlen1⟩ := deal_all_cards_ok_count _ _ _ _ hdeal
            cases buckets with
            | nil => cases hlen1
            | cons b rest =>
              cases rest with
              | cons x xs => simp at hlen1
              | nil =>
                simp only [List.head?_cons] at h
                have hpc2 := handPop_count (hand ++ b)
                cases hpop2 : handPop (hand ++ b) with
                | mk o2 hand2 =>
                  rw [hpop2] at h hpc2
                  cases o2 with
                  | some c =>
                    cases h
                    simp only [sumLen, List.map_cons, List.map_nil, List.sum_cons,
                      List.sum_nil, Deck.len, List.length_append,
                      Option.toList_some, List.length_cons, List.length_nil] at *
                    omega
                  | none =>
                    cases h
                    simp only [sumLen, List.map_cons, List.map_nil, List.sum_cons,
                      List.sum_nil, Deck.len, List.length_append,
                      Option.toList_none, List.length_nil] at *
                    omega

theorem downStep_count (sh : Nat → List Card → List Card)
    (hsh : LengthPreserving sh) (k : Nat) (g : WarGame) (pot : List Card)
    (ch1 ch2 : Option Card) (g1 : WarGame) (pot1 : List Card)
    (d1 d2 : Option Card) (k1 : Nat)
    (h : downStep sh k g pot ch1 ch2 = .ok (g1, pot1, d1, d2, k1)) :
    pot1.length + g1.totalCount = pot.length + g.totalCount := by
  simp only [downStep] at h
  cases hd1 : drawDown sh k g.player_1_hand g.player_1_capture with
  | error e => rw [hd1] at h; cases h
  | ok r1 =>
    obtain ⟨oc1, h1, c1, k1a⟩ := r1
    rw [hd1] at h
    dsimp only at h
    cases hd2 : drawDown sh k1a g.player_2_hand g.player_2_capture with
    | error e => rw [hd2] at h; cases h
    | ok r2 =>
      obtain ⟨oc2, h2, c2, k2a⟩ := r2
      rw [hd2] at h
      cases h
      have q1 := drawDown_count sh hsh k _ _ _ _ _ _ hd1
      have q2 := drawDown_count sh hsh k1a _ _ _ _ _ _ hd2
      simp only [WarGame.totalCount, List.length_append]
      omega

theorem downPhase_count (sh : Nat → List Card → List Card)
    (hsh : LengthPreserving sh) :
    ∀ (n k : Nat) (g : WarGame) (pot : List Card) (ch1 ch2 : Option Card)
      (g1 : WarGame) (pot1 : List Card) (d1 d2 : Option Card) (k1 : Nat),
    downPhase sh n k g pot ch1 ch2 = .ok (g1, pot1, d1, d2, k1) →
    pot1.length + g1.totalCount = pot.length + g.totalCount := by
  intro n
  induction n with
  | zero =>
    intro k g pot ch1 ch2 g1 pot1 d1 d2 k1 h
    simp only [downPhase] at h
    cases h
    rfl
  | succ m ih =>
    intro k g pot ch1 ch2 g1 pot1 d1 d2 k1 h
    simp only [downPhase] at h
    cases hs : downStep sh k g pot ch1 ch2 with
    | error e => rw [hs] at h; cases h
    | ok r =>
      obtain ⟨ga, pota, da, db, ka⟩ := r
      rw [hs] at h
      have q1 := downStep_count sh hsh k _ _ _ _ _ _ _ _ _ hs
      have q2 := ih _ _ _ _ _ _ _ _ _ _ h
      omega

theorem warRound_count (sh : Nat → List Card → List Card)
    (hsh : LengthPreserving sh) (k : Nat) (g : WarGame) (pot : List Card)
    (ord : Ordering) (g1 : WarGame) (pot1 : List Card) (k1 : Nat)
    (h : warRound sh k g pot = .ok (ord, g1, pot1, k1)) :
    pot1.length + g1.totalCount = pot.length + g.totalCount := by
  simp only [warRound] at h
  cases hdp : downPhase sh 3 k g pot none none with
  | error e => rw [hdp] at h; cases h
  | ok r =>
    obtain ⟨ga, pota, ch1, ch2, ka⟩ := r
    rw [hdp] at h
    dsimp only at h
    have q0 := downPhase_count sh hsh _ _ _ _ _ _ _ _ _ _ _ hdp
    have p1 := handPop_count ga.player_1_hand
    have p2 := handPop_count ga.player_2_hand
    cases hp1 : handPop ga.player_1_hand with
    | mk f1 h1 =>
      cases hp2 : handPop ga.player_2_hand with
      | mk f2 h2 =>
        rw [hp1] at h p1
        rw [hp2] at h p2
        dsimp only at h p1 p2
        cases hor1 : f1.or ch1 with
        | some c1 =>
          cases hor2 : f2.or ch2 with
          | some c2 =>
            rw [hor1, hor2] at h
            cases h
            simp only [WarGame.totalCount, List.length_append] at *
            omega
          | none =>
            rw [hor1, hor2] at h
            cases h
            simp only [WarGame.totalCount, List.length_append] at *
            omega
        | none =>
          cases hor2 : f2.or ch2 with
          | some c2 =>
            rw [hor1, hor2] at h
            cases h
            simp only [WarGame.totalCount, List.length_append] at *
            omega
          | none =>
            rw [hor1, hor2] at h
            cases h

theorem warLoop_count (sh : Nat → List Card → List Card)
    (hsh : LengthPreserving sh) :
    ∀ (fuel k : Nat) (g : WarGame) (pot : List Card)
      (ord : Ordering) (g1 : WarGame) (pot1 : List Card) (k1 : Nat),
    warLoop sh fuel k g pot = .ok (ord, g1, pot1, k1) →
    pot1.length + g1.totalCount = pot.length + g.totalCount := by
  intro fuel
  induction fuel with
  | zero =>
    intro k g pot ord g1 pot1 k1 h
    simp only [warLoop] at h
    cases h
  | succ f ih =>
    intro k g pot ord g1 pot1 k1 h
    simp only [warLoop] at h
    cases hr : warRound sh k g pot with
    | error e => rw [hr] at h; cases h
    | ok r =>
      obtain ⟨orda, ga, pota, ka⟩ := r
      rw [hr] at h
      dsimp only at h
      have q1 := warRound_count sh hsh _ _ _ _ _ _ _ hr
      by_cases he : orda = Ordering.eq
      · rw [if_pos he] at h
        have q2 := ih _ _ _ _ _ _ _ h
        omega
      · rw [if_neg he] at h
        cases h
        omega

theorem tick_count (sh : Nat → List Card → List Card)
    (hsh : LengthPreserving sh) (fuel k : Nat) (g : WarGame) (b : Bool)
    (g2 : WarGame) (k2 : Nat)
    (h : WarGame.tick sh fuel k g = .ok (b, g2, k2)) :
    g2.totalCount = g.totalCount := by
  simp only [WarGame.tick] at h
  by_cases hwon : (g.player_1_won || g.player_2_won) = true
  · rw [if_pos hwon] at h
    cases h
    rfl
  · rw [if_neg hwon] at h
    cases hr1 : refillHand sh k g.player_1_hand g.player_1_capture with
    | error e => rw [hr1] at h; cases h
    | ok r1 =>
      obtain ⟨p1h, p1c, k1⟩ := r1
      rw [hr1] at h
      dsimp only at h
      cases hr2 : refillHand sh k1 g.player_2_hand g.player_2_capture with
      | error e => rw [hr2] at h; cases h
      | ok r2 =>
        obtain ⟨p2h, p2c, ka⟩ := r2
        rw [hr2] at h
        dsimp only at h
        have q1 := refillHand_count sh hsh k _ _ _ _ _ hr1
        have q2 := refillHand_count sh hsh k1 _ _ _ _ _ hr2
        have p1 := handPop_count p1h
        have p2 := handPop_count p2h
        cases hp1 : handPop p1h with
        | mk o1 p1h1 =>
          cases hp2 : handPop p2h with
          | mk o2 p2h1 =>
            rw [hp1] at h p1
            rw [hp2] at h p2
            dsimp only at h p1 p2
            cases o1 with
            | none =>
              cases o2 with
              | none => dsimp only at h; cases h
              | some c2 => dsimp only at h; cases h
            | some c1 =>
              cases o2 with
              | none => dsimp only at h; cases h
              | some c2 =>
                dsimp only at h
                simp only [Option.toList_some, List.length_cons,
                  List.length_nil] at p1 p2
                cases hcmp : Suitless.cmp ⟨c1⟩ ⟨c2⟩ with
                | lt =>
                  rw [hcmp] at h
                  cases h
                  simp only [WarGame.totalCount, Deck.add, Deck.len,
                    List.length_append, List.length_cons, List.length_nil] at *
                  omega
                | gt =>
                  rw [hcmp] at h
                  cases h
                  simp only [WarGame.totalCount, Deck.add, Deck.len,
                    List.length_append, List.length_cons, List.length_nil] at *
                  omega
                | eq =>
                  rw [hcmp] at h
                  dsimp only at h
                  cases hwl : warLoop sh fuel ka ⟨p1h1, p2h1, p1c, p2c⟩ [c1, c2] with
                  | error e => rw [hwl] at h; cases h
                  | ok r =>
                    obtain ⟨ord, ga, pot, kb⟩ := r
                    rw [hwl] at h
                    dsimp only at h
                    have q3 := warLoop_count sh hsh _ _ _ _ _ _ _ _ hwl
                    by_cases hlt : ord = Ordering.lt
                    · rw [if_pos hlt] at h
                      cases h
                      simp only [WarGame.totalCount, Deck.extendCards, Deck.len,
                        List.length_append, List.length_cons, List.length_nil] at *
                      omega
                    · rw [if_neg hlt] at h
                      cases h
                      simp only [WarGame.totalCount, Deck.extendCards, Deck.len,
                        List.length_append, List.length_cons, List.length_nil] at *
                      omega

theorem all_cards_length : Card.all_cards.length = 52 := rfl

theorem mkDefault_total (sh : Nat → List Card → List Card)
    (hsh : LengthPreserving sh) (g : WarGame)
    (h : WarGame.mkDefault sh = some g) : g.totalCount = 52 := by
  have hlen : (Deck.mk (sh 0 Card.all_cards)).len = 52 := by
    simp only [Deck.len, hsh 0 Card.all_cards, all_cards_length]
  obtain ⟨hs, d2, hdeal, h1, h2, h3⟩ :=
    deal_all_cards_spec ⟨sh 0 Card.all_cards⟩ 2 (by omega)
  simp only [WarGame.mkDefault, hdeal] at h
  cases hs with
  | nil => cases h1
  | cons b0 rest =>
    cases rest with
    | nil => simp at h1
    | cons b1 rest2 =>
      cases rest2 with
      | cons x xs => simp at h1
      | nil =>
        dsimp only at h
        cases h
        have hb0 : b0.length = 26 := by
          have := h2 b0 (by simp)
          rw [hlen] at this
          simpa using this
        have hb1 : b1.length = 26 := by
          have := h2 b1 (by simp)
          rw [hlen] at this
          simpa using this
        simp only [WarGame.totalCount, Deck.len, List.length_nil]
        simp [hb0, hb1]

/-- C1: every WarGame state reachable from the default construction by
ticks keeps exactly 52 cards across both hands and both capture piles, for
any shuffle oracle that preserves the length of what it shuffles (as any
permutation does): no tick creates or destroys a card. -/
theorem naipe_C1_reachable_total_is_52 (sh : Nat → List Card → List Card)
    (hsh : LengthPreserving sh) (g : WarGame) (k : Nat)
    (h : Reachable sh g k) : g.totalCount = 52 := by
  induction h with
  | init g0 hg => exact mkDefault_total sh hsh g0 hg
  | step g0 k0 fuel b g2 k2 hreach htick ih =>
    rw [tick_count sh hsh fuel k0 g0 b g2 k2 htick]
    exact ih

/-- Witness for C1 at a concrete input. -/
theorem naipe_C1_witness : defaultIdGame.totalCount = 52 :=
  naipe_C1_reachable_total_is_52 idSh (fun _ _ => rfl) defaultIdGame 1
    (Reachable.init defaultIdGame rfl)

/-- C2 is violated by the code: there is a legal shuffle (a genuine
permutation of the 52-card deck, certified by the first conjunct) whose
default deal leads the very first tick into the branch where neither
player has a contributed card during war escalation — the unreachable!
panic at war.rs line 157. The state is reachable (it is the default
construction itself) and the tick evaluates to the unreachable-tiebreak
panic. -/
theorem naipe_C2_unreachable_branch_reached :
    (panicSh 0 Card.all_cards).Perm Card.all_cards ∧
      WarGame.mkDefault panicSh = some panicGame ∧
      Reachable panicSh panicGame 1 ∧
      WarGame.tick panicSh 10 1 panicGame = .error .unreachableTiebreak :=
  ⟨by decide, rfl, Reachable.init panicGame rfl, rfl⟩

/-- C3 as stated is false: Ace is not the lowest rank. Under the derived
order (declaration sequence, card.rs lines 9-24) Ace compares above Two. -/
theorem naipe_C3_counterexample :
    Rank.cmp Rank.Ace Rank.Two = Ordering.gt ∧
      Rank.cmp Rank.Ace Rank.Two ≠ Ordering.lt := by
  exact ⟨rfl, by decide⟩

/-- C3 amended: the total order on Rank follows the declaration sequence
with Two lowest and Ace highest: Two < Three < ... < Queen < King < Ace. -/
theorem naipe_C3_amended_rank_order :
    Rank.cmp .Two .Three = .lt ∧ Rank.cmp .Three .Four = .lt ∧
      Rank.cmp .Four .Five = .lt ∧ Rank.cmp .Five .Six = .lt ∧
      Rank.cmp .Six .Seven = .lt ∧ Rank.cmp .Seven .Eight = .lt ∧
      Rank.cmp .Eight .Nine = .lt ∧ Rank.cmp .Nine .Ten = .lt ∧
      Rank.cmp .Ten .Jack = .lt ∧ Rank.cmp .Jack .Queen = .lt ∧
      Rank.cmp .Queen .King = .lt ∧ Rank.cmp .King .Ace = .lt := by
  decide

/-- C4: when some player's hand and capture pile are both empty, tick
returns the terminal result with the state (all four piles) unchanged and
the shuffle counter untouched, so repeated ticks keep reporting the same
terminal outcome. -/
theorem naipe_C4_terminal_tick_frame (sh : Nat → List Card → List Card)
    (fuel k : Nat) (g : WarGame)
    (h : (g.player_1_hand = [] ∧ g.player_1_capture.cards = []) ∨
         (g.player_2_hand = [] ∧ g.player_2_capture.cards = [])) :
    WarGame.tick sh fuel k g = .ok (true, g, k) := by
  have hwon : (g.player_1_won || g.player_2_won) = true := by
    cases h with
    | inl hp =>
      simp [WarGame.player_1_won, WarGame.player_2_won, Deck.is_empty,
        hp.1, hp.2]
    | inr hp =>
      simp [WarGame.player_1_won, WarGame.player_2_won, Deck.is_empty,
        hp.1, hp.2]
  simp only [WarGame.tick, hwon, if_true]

/-- Witness for C4 at a concrete terminal state. -/
theorem naipe_C4_witness :
    WarGame.tick idSh 1 0 ⟨[aceSpade], [], ⟨[]⟩, ⟨[]⟩⟩ =
      .ok (true, ⟨[aceSpade], [], ⟨[]⟩, ⟨[]⟩⟩, 0) :=
  naipe_C4_terminal_tick_frame idSh 1 0 ⟨[aceSpade], [], ⟨[]⟩, ⟨[]⟩⟩
    (Or.inr ⟨rfl, rfl⟩)

/-- C5 as stated fails when the losing player reshuffles during the same
tick: starting from player 1 holding the King with player 2's only card (a
Five) in the capture pile, the tick is non-terminal, the played ranks
differ, yet player 2's capture pile changes (it is emptied into the hand)
and player 2's hand does not shrink. -/
theorem naipe_C5_counterexample :
    WarGame.tick idSh 1 0 ⟨[kingSpade], [], ⟨[]⟩, ⟨[fiveSpade]⟩⟩ =
      .ok (false, ⟨[], [], ⟨[kingSpade, fiveSpade]⟩, ⟨[]⟩⟩, 1) ∧
      (WarGame.mk [] [] ⟨[kingSpade, fiveSpade]⟩ ⟨[]⟩).player_2_capture ≠
        (WarGame.mk [kingSpade] [] ⟨[]⟩ ⟨[fiveSpade]⟩).player_2_capture ∧
      (WarGame.mk [] [] ⟨[kingSpade, fiveSpade]⟩ ⟨[]⟩).player_2_hand.length =
        (WarGame.mk [kingSpade] [] ⟨[]⟩ ⟨[fiveSpade]⟩).player_2_hand.length :=
  ⟨rfl, by decide, rfl⟩

/-- C5 amended: in a non-terminal tick in which neither player needs a
reshuffle (both hands nonempty at tick start) and the two played (top)
cards have different ranks, the player with the higher rank gains exactly
the two played cards in their capture pile, each hand loses exactly its
played card, the loser's capture pile is unchanged, and the tick reports
not-finished. -/
theorem naipe_C5_amended_no_tie_capture (sh : Nat → List Card → List Card)
    (fuel k : Nat) (g : WarGame) (c1 c2 : Card)
    (hwon : (g.player_1_won || g.player_2_won) = false)
    (h1 : g.player_1_hand.getLast? = some c1)
    (h2 : g.player_2_hand.getLast? = some c2) :
    (Rank.cmp c1.rank c2.rank = .gt →
      WarGame.tick sh fuel k g = .ok (false,
        ⟨g.player_1_hand.dropLast, g.player_2_hand.dropLast,
         (g.player_1_capture.add c1).add c2, g.player_2_capture⟩, k)) ∧
    (Rank.cmp c1.rank c2.rank = .lt →
      WarGame.tick sh fuel k g = .ok (false,
        ⟨g.player_1_hand.dropLast, g.player_2_hand.dropLast,
         g.player_1_capture, (g.player_2_capture.add c1).add c2⟩, k)) := by
  have hne1 : g.player_1_hand.isEmpty = false := by
    cases hl : g.player_1_hand with
    | nil => rw [hl] at h1; cases h1
    | cons a as => rfl
  have hne2 : g.player_2_hand.isEmpty = false := by
    cases hl : g.player_2_hand with
    | nil => rw [hl] at h2; cases h2
    | cons a as => rfl
  have hcmps : ∀ o : Ordering, Rank.cmp c1.rank c2.rank = o →
      Suitless.cmp ⟨c1⟩ ⟨c2⟩ = o := fun o ho => ho
  constructor <;> intro hcmp <;>
    simp only [WarGame.tick, hwon, Bool.false_eq_true, if_false, refillHand,
      hne1, hne2, if_true, handPop, h1, h2, hcmps _ hcmp]

/-- Witness for C5 at the spec's King-versus-Five example. -/
theorem naipe_C5_witness :
    WarGame.tick idSh 1 0 ⟨[kingSpade], [fiveHeart], ⟨[]⟩, ⟨[]⟩⟩ =
      .ok (false, ⟨[], [], ⟨[kingSpade, fiveHeart]⟩, ⟨[]⟩⟩, 0) :=
  (naipe_C5_amended_no_tie_capture idSh 1 0
    ⟨[kingSpade], [fiveHeart], ⟨[]⟩, ⟨[]⟩⟩ kingSpade fiveHeart
    rfl rfl rfl).1 rfl

/-- C6: deal_cards is atomic: when the request exceeds the deck size it
fails with NotEnoughCards leaving the deck exactly as it was, and it
succeeds whenever the request fits. -/
theorem naipe_C6_deal_cards_atomic (d : Deck) (hand_count cards_per_hand : Nat) :
    (d.len < hand_count * cards_per_hand →
      d.deal_cards hand_count cards_per_hand = (.error .NotEnoughCards, d)) ∧
    (hand_count * cards_per_hand ≤ d.len →
      ∃ hs d2, d.deal_cards hand_count cards_per_hand = (.ok hs, d2)) := by
  constructor
  · intro h
    exact deal_cards_err d hand_count cards_per_hand h
  · intro h
    obtain ⟨hs, d2, hok, _⟩ := deal_cards_ok d hand_count cards_per_hand h
    exact ⟨hs, d2, hok⟩

/-- Witness for C6: an over-large request on a one-card deck errors and
leaves the deck untouched. -/
theorem naipe_C6_witness :
    Deck.deal_cards ⟨[aceSpade]⟩ 2 1 = (.error .NotEnoughCards, ⟨[aceSpade]⟩) :=
  (naipe_C6_deal_cards_atomic ⟨[aceSpade]⟩ 2 1).1 (by decide)

/-- C7: the Suitless wrapper compares cards by rank alone: equality holds
iff the ranks agree, and the ordering result is exactly the ordering of
the two ranks, whatever the suits. -/
theorem naipe_C7_suitless_ignores_suit (a b : Card) :
    (Suitless.eqb ⟨a⟩ ⟨b⟩ = true ↔ a.rank = b.rank) ∧
      Suitless.cmp ⟨a⟩ ⟨b⟩ = Rank.cmp a.rank b.rank := by
  constructor
  · simp [Suitless.eqb]
  · rfl

/-- Witness for C7: equal rank, different suit compare equal. -/
theorem naipe_C7_witness :
    Suitless.eqb ⟨aceSpade⟩ ⟨⟨.Heart, .Ace⟩⟩ = true :=
  (naipe_C7_suitless_ignores_suit aceSpade ⟨.Heart, .Ace⟩).1.mpr rfl

/-- C8: deal_cards distributes round-robin from the top of the deck: with
deck [c0,...,c5] (c5 on top), deal_cards(2,3) gives bucket0 = [c5,c3,c1]
and bucket1 = [c4,c2,c0] and empties the deck. -/
theorem naipe_C8_round_robin (c0 c1 c2 c3 c4 c5 : Card) :
    Deck.deal_cards ⟨[c0, c1, c2, c3, c4, c5]⟩ 2 3 =
      (.ok [[c5, c3, c1], [c4, c2, c0]], ⟨[]⟩) := rfl

/-- C9: for positive hand_count, deal_all_cards fails with NotEnoughCards
(deck unchanged) exactly when the deck is smaller than hand_count, and
otherwise deals len/hand_count cards to each of the hand_count buckets,
leaving len mod hand_count cards behind. -/
theorem naipe_C9_deal_all_cards (d : Deck) (hand_count : Nat)
    (hpos : 0 < hand_count) :
    (d.len < hand_count →
      d.deal_all_cards hand_count = (.error .NotEnoughCards, d)) ∧
    (hand_count ≤ d.len →
      ∃ hs d2, d.deal_all_cards hand_count = (.ok hs, d2) ∧
        hs.length = hand_count ∧
        (∀ b ∈ hs, b.length = d.len / hand_count) ∧
        d2.len = d.len % hand_count) := by
  constructor
  · intro h
    simp only [Deck.deal_all_cards, if_pos h]
  · intro h
    exact deal_all_cards_spec d hand_count h

/-- Witness for C9: a one-card deck cannot serve two hands; the deck is
left untouched. -/
theorem naipe_C9_witness :
    Deck.deal_all_cards ⟨[aceSpade]⟩ 2 = (.error .NotEnoughCards, ⟨[aceSpade]⟩) :=
  (naipe_C9_deal_all_cards ⟨[aceSpade]⟩ 2 (by decide)).1 (by decide)

theorem dealRounds_nil (n : Nat) (d : Deck) :
    dealRounds n d [] = (some [], d) := by
  induction n with
  | zero => rfl
  | succ m ih => simp only [dealRounds, dealRound, ih]

/-- C10: a zero-total deal request (hand_count = 0 or cards_per_hand = 0)
always succeeds, returning hand_count empty buckets and leaving the deck
unchanged, even on the empty deck. -/
theorem naipe_C10_zero_request (d : Deck) (hand_count cards_per_hand : Nat)
    (h : hand_count = 0 ∨ cards_per_hand = 0) :
    d.deal_cards hand_count cards_per_hand =
      (.ok (List.replicate hand_count []), d) := by
  cases h with
  | inl h0 =>
    subst h0
    simp only [Deck.deal_cards, Nat.zero_mul, Nat.not_lt_zero, if_false,
      List.replicate, dealRounds_nil]
  | inr h0 =>
    subst h0
    simp only [Deck.deal_cards, Nat.mul_zero, Nat.not_lt_zero, if_false,
      dealRounds]

/-- Witness for C10: zero hands requested from the empty deck. -/
theorem naipe_C10_witness :
    Deck.deal_cards ⟨[]⟩ 0 5 = (.ok (List.replicate 0 []), ⟨[]⟩) :=
  naipe_C10_zero_request ⟨[]⟩ 0 5 (Or.inl rfl)

end Naipe
